import Mathlib

/-!
Verification development for the ADB-Insight telemetry collector.

The C++ sources (`src/adb_utils.cpp`, `src/parsers.cpp`, `src/main.cpp`) are
shallowly embedded below.  `std::string` is modelled as `List Char` (named
`Str`), machine `int` as `Int` with the explicit `stoi` range check,
`double` arithmetic as exact rational arithmetic (all values appearing in
the verified scenarios are exactly representable), and
`std::chrono::system_clock` time points as nanosecond ticks (`Nat`).
Out-of-bounds `std::vector` indexing — undefined behaviour in C++ — is
modelled by returning `none`.
-/

namespace AdbInsight

/-- C++ `std::string`, modelled as its character list. -/
abbrev Str := List Char

/-! ## Model of `std::stoi` -/

/-- Numeric value of a decimal digit character. -/
def digitVal (c : Char) : Nat := c.toNat - 48

/-- Value of a decimal digit string (most significant digit first). -/
def digitsVal (ds : Str) : Nat := ds.foldl (fun a c => a * 10 + digitVal c) 0

/-- Largest value representable in a C++ `int` (`INT_MAX`). -/
def intMax : Nat := 2147483647

/-- Model of `std::stoi`: skip leading whitespace, optional sign, then a
non-empty maximal run of decimal digits; `none` models both
`std::invalid_argument` (no digits) and `std::out_of_range` (value outside
the `int` range), which the call sites catch. Trailing junk is ignored. -/
def stoiM (s : Str) : Option Int :=
  match s.dropWhile (fun c => c.isWhitespace) with
  | [] => none
  | c :: rest =>
    if c = '-' then
      let ds := rest.takeWhile (fun c => c.isDigit)
      if ds.isEmpty then none
      else if digitsVal ds ≤ intMax + 1 then some (-(digitsVal ds : Int)) else none
    else if c = '+' then
      let ds := rest.takeWhile (fun c => c.isDigit)
      if ds.isEmpty then none
      else if digitsVal ds ≤ intMax then some (digitsVal ds : Int) else none
    else
      let ds := (c :: rest).takeWhile (fun c => c.isDigit)
      if ds.isEmpty then none
      else if digitsVal ds ≤ intMax then some (digitsVal ds : Int) else none

/-! ## Line splitting (`std::getline` loop) -/

/-- Worker for `splitLines`: `acc` holds the current line reversed. -/
def splitLinesGo : Str → Str → List Str
  | [], acc => [acc.reverse]
  | '\n' :: rest, acc =>
    acc.reverse :: (if rest.isEmpty then [] else splitLinesGo rest [])
  | c :: rest, acc => splitLinesGo rest (c :: acc)

/-- Model of the `while (std::getline(iss, l)) lines.push_back(l)` idiom:
split on `'\n'`, with no empty trailing line for a newline-terminated
input and no line at all for the empty input. -/
def splitLines (cs : Str) : List Str :=
  if cs.isEmpty then [] else splitLinesGo cs []

/-! ## The demultiplexer of `adb::shell_multi` -/

/-- The fixed marker literal `"__ADB_MULTI__"`. -/
def marker : Str := "__ADB_MULTI__".data

/-- Model of popping one trailing `'\n'` from the accumulated segment
buffer (`if (!buffered.empty() && buffered.back() == '\n') pop_back`). -/
def stripNL (s : Str) : Str :=
  if s.getLast? = some '\n' then s.dropLast else s

/-- Join lines the way the accumulation buffer sees them: every line is
written followed by `'\n'` (`buffer << line << "\n"`). -/
def joinNL : List Str → Str
  | [] => []
  | l :: ls => l ++ '\n' :: joinNL ls

/-- State of the demultiplexing loop in `adb::shell_multi`. -/
structure DemuxSt where
  results : List Str
  current : Int
  buffer : Str
deriving DecidableEq, Repr

/-- The `if (current >= 0) { results[current] = buffered; … }` flush.
An index at or beyond `results.length` is an out-of-bounds
`std::vector::operator[]` write — undefined behaviour — modelled as
`none`. -/
def flushSeg (st : DemuxSt) : Option DemuxSt :=
  if 0 ≤ st.current then
    if st.current.toNat < st.results.length then
      some ⟨st.results.set st.current.toNat (stripNL st.buffer), st.current, []⟩
    else none
  else some st

/-- One iteration of the demultiplexing loop body. -/
def demuxStep (st : DemuxSt) (line : Str) : Option DemuxSt :=
  if marker.isPrefixOf line then
    match flushSeg st with
    | none => none
    | some st1 =>
      match stoiM (line.drop marker.length) with
      | some k => some ⟨st1.results, k, st1.buffer⟩
      | none => some ⟨st1.results, st1.current + 1, st1.buffer⟩
  else if 0 ≤ st.current then
    some ⟨st.results, st.current, st.buffer ++ line ++ ['\n']⟩
  else some st

/-- Run the demultiplexing loop from an arbitrary state and apply the
final flush, as the tail of `adb::shell_multi` does. -/
def demuxFrom (st : DemuxSt) (lines : List Str) : Option (List Str) :=
  (lines.foldlM demuxStep st).bind fun st1 => (flushSeg st1).map (·.results)

/-- Demultiplex the channel output lines for `n` requested commands:
`results(cmds.size(), "")`, `current = -1`, empty buffer. -/
def demuxLines (n : Nat) (lines : List Str) : Option (List Str) :=
  demuxFrom ⟨List.replicate n [], -1, []⟩ lines

/-! ## `adb::shell` and `adb::shell_multi` -/

/-- Trailing-whitespace strip performed by `adb::shell` on the raw pipe
output (`'\n'`, `'\r'`, `' '`). -/
def stripTrailWS (s : Str) : Str :=
  (s.reverse.dropWhile (fun c => c = '\n' ∨ c = '\r' ∨ c = ' ')).reverse

/-- Model of `adb::shell cmd false` over an abstract channel.  A channel
answer of `none` models `popen` failing to start the process, in which
case `shell` returns the empty string without throwing. -/
def shellModel (channel : Str → Option Str) (cmd : Str) : Str :=
  match channel cmd with
  | none => []
  | some out => stripTrailWS out

/-- The combined batched script: `"echo " + marker + i + "; " + cmd + "; "`
for each command in order. -/
def combinedScript (cmds : List Str) : Str :=
  (cmds.enum.foldl
    (fun acc ic =>
      acc ++ "echo ".data ++ marker ++ (toString ic.1).data ++ "; ".data
        ++ ic.2 ++ "; ".data) [])

/-- Model of `adb::shell_multi`: the result value (with `none` for the
out-of-bounds write, see `flushSeg`) paired with the number of channel
invocations performed. -/
def shell_multi (channel : Str → Option Str) (cmds : List Str) :
    Option (List Str) × Nat :=
  if cmds.isEmpty then (some [], 0)
  else
    let out := shellModel channel (combinedScript cmds)
    (demuxLines cmds.length (splitLines out), 1)

/-! ## Decimal digit strings: `std::to_string` round-trips through `std::stoi` -/

theorem foldl_digitsVal (ds : Str) : ∀ a : Nat,
    ds.foldl (fun a c => a * 10 + digitVal c) a = a * 10 ^ ds.length + digitsVal ds := by
  induction ds with
  | nil => intro a; simp [digitsVal]
  | cons c t ih =>
    intro a
    have h0 : digitsVal (c :: t) = digitVal c * 10 ^ t.length + digitsVal t := by
      show t.foldl _ (0 * 10 + digitVal c) = _
      rw [ih]
      ring_nf
    simp only [List.foldl_cons, ih, h0, List.length_cons]
    ring

theorem digitChar_isDigit {m : Nat} (h : m < 10) : (Nat.digitChar m).isDigit = true := by
  interval_cases m <;> decide

theorem digitVal_digitChar {m : Nat} (h : m < 10) : digitVal (Nat.digitChar m) = m := by
  interval_cases m <;> decide

theorem toDigitsCore_spec : ∀ (fuel n : Nat) (acc : Str), n < 10 ^ fuel → 0 < fuel →
    ∃ pre : Str, Nat.toDigitsCore 10 fuel n acc = pre ++ acc ∧ pre ≠ [] ∧
      (∀ c ∈ pre, c.isDigit = true) ∧ digitsVal pre = n := by
  intro fuel
  induction fuel with
  | zero => intro n acc _ h0; omega
  | succ f ih =>
    intro n acc hlt _
    have hm : n % 10 < 10 := Nat.mod_lt _ (by omega)
    by_cases hdiv : n / 10 = 0
    · refine ⟨[Nat.digitChar (n % 10)], ?_, by simp, ?_, ?_⟩
      · show Nat.toDigitsCore 10 (f + 1) n acc = _
        rw [Nat.toDigitsCore]
        simp [hdiv]
      · intro c hc
        simp at hc
        subst hc
        exact digitChar_isDigit hm
      · have hn : n < 10 := by
          have := Nat.div_add_mod n 10
          omega
        have h1 : digitsVal [Nat.digitChar (n % 10)]
            = digitVal (Nat.digitChar (n % 10)) := by simp [digitsVal]
        rw [h1, digitVal_digitChar hm, Nat.mod_eq_of_lt hn]
    · have hf : 0 < f := by
        rcases Nat.eq_zero_or_pos f with hf0 | hf0
        · subst hf0
          simp at hlt
          omega
        · exact hf0
      have hlt' : n / 10 < 10 ^ f := by
        rw [Nat.div_lt_iff_lt_mul (by omega)]
        calc n < 10 ^ (f + 1) := hlt
        _ = 10 ^ f * 10 := by ring
      obtain ⟨pre, heq, hne, hdig, hval⟩ :=
        ih (n / 10) (Nat.digitChar (n % 10) :: acc) hlt' hf
      refine ⟨pre ++ [Nat.digitChar (n % 10)], ?_, by simp, ?_, ?_⟩
      · show Nat.toDigitsCore 10 (f + 1) n acc = _
        rw [Nat.toDigitsCore]
        simp only [hdiv, if_neg hdiv]
        rw [heq]
        simp
      · intro c hc
        rcases List.mem_append.1 hc with hc | hc
        · exact hdig c hc
        · simp at hc
          subst hc
          exact digitChar_isDigit hm
      · show (pre ++ [Nat.digitChar (n % 10)]).foldl _ 0 = n
        rw [List.foldl_append]
        show List.foldl _ (digitsVal pre) _ = n
        simp [List.foldl_cons, hval, digitVal_digitChar hm]
        omega

theorem toString_nat_data (n : Nat) : (toString n).data = Nat.toDigits 10 n := rfl

theorem toDigits_spec (n : Nat) :
    Nat.toDigits 10 n ≠ [] ∧ (∀ c ∈ Nat.toDigits 10 n, c.isDigit = true) ∧
      digitsVal (Nat.toDigits 10 n) = n := by
  have hfuel : n < 10 ^ (n + 1) :=
    Nat.lt_of_lt_of_le (Nat.lt_pow_self (by omega) n)
      (Nat.pow_le_pow_right (by omega) (by omega))
  obtain ⟨pre, heq, hne, hdig, hval⟩ := toDigitsCore_spec (n + 1) n [] hfuel (by omega)
  rw [Nat.toDigits, heq, List.append_nil]
  exact ⟨hne, hdig, hval⟩

theorem isDigit_not_whitespace {c : Char} (h : c.isDigit = true) :
    c.isWhitespace = false := by
  cases hw : c.isWhitespace
  · rfl
  · exfalso
    simp [Char.isWhitespace] at hw
    have hcases : c = ' ' ∨ c = '\t' ∨ c = '\r' ∨ c = '\n' := by tauto
    rcases hcases with rfl | rfl | rfl | rfl <;> exact absurd h (by decide)

theorem takeWhile_all {p : Char → Bool} :
    ∀ l : Str, (∀ c ∈ l, p c = true) → l.takeWhile p = l := by
  intro l
  induction l with
  | nil => intro _; rfl
  | cons c t ih =>
    intro h
    rw [List.takeWhile_cons, h c (by simp), ih (fun x hx => h x (by simp [hx]))]
    simp

/-- `std::stoi` applied to `std::to_string(i)` recovers `i`, for any `i`
within the `int` range. -/
theorem stoiM_toString (i : Nat) (hi : i ≤ intMax) :
    stoiM (toString i).data = some (i : Int) := by
  obtain ⟨hne, hdig, hval⟩ := toDigits_spec i
  rw [toString_nat_data]
  cases hds : Nat.toDigits 10 i with
  | nil => exact absurd hds hne
  | cons c rest =>
    have hcd : c.isDigit = true := hdig c (by rw [hds]; simp)
    have hrest : ∀ x ∈ rest, x.isDigit = true := by
      intro x hx
      exact hdig x (by rw [hds]; simp [hx])
    have hdrop : (c :: rest).dropWhile (fun c => c.isWhitespace) = c :: rest := by
      rw [List.dropWhile_cons, isDigit_not_whitespace hcd]
      simp
    have hdash : ¬ c = '-' := by rintro rfl; simp [Char.isDigit] at hcd
    have hplus : ¬ c = '+' := by rintro rfl; simp [Char.isDigit] at hcd
    have htake : (c :: rest).takeWhile (fun c => c.isDigit) = c :: rest := by
      apply takeWhile_all
      intro x hx
      rcases List.mem_cons.1 hx with rfl | hx
      · exact hcd
      · exact hrest x hx
    rw [stoiM, hdrop]
    simp only [if_neg hdash, if_neg hplus, htake]
    rw [hds] at hval
    simp [hval, hi]

/-! ## Demultiplexer lemmas -/

/-- Result vector after the guarded flush, ignoring bounds (the bounded
version is `flushSeg`; they agree whenever the write is in range). -/
def flushRes (st : DemuxSt) : List Str :=
  if 0 ≤ st.current then st.results.set st.current.toNat (stripNL st.buffer)
  else st.results

/-- Write the demultiplexed segment texts into consecutive slots starting
at index `i`. -/
def setSegs : List Str → Nat → List (List Str) → List Str
  | res, _, [] => res
  | res, i, ls :: rest => setSegs (res.set i (stripNL (joinNL ls))) (i + 1) rest

/-- The ideal channel output lines for commands indexed from `i`: each
command's marker line followed by that command's output lines. -/
def segLines : Nat → List (List Str) → List Str
  | _, [] => []
  | i, ls :: rest => (marker ++ (toString i).data) :: (ls ++ segLines (i + 1) rest)

theorem flushSeg_length {st st' : DemuxSt} (h : flushSeg st = some st') :
    st'.results.length = st.results.length := by
  unfold flushSeg at h
  split at h
  · split at h
    · cases h
      simp
    · cases h
  · cases h
    rfl

theorem demuxStep_length {st : DemuxSt} {line : Str} {st' : DemuxSt}
    (h : demuxStep st line = some st') : st'.results.length = st.results.length := by
  unfold demuxStep at h
  split at h
  · cases hf : flushSeg st with
    | none => rw [hf] at h; cases h
    | some st1 =>
      rw [hf] at h
      have h1 := flushSeg_length hf
      cases hsto : stoiM (line.drop marker.length) with
      | some k => rw [hsto] at h; cases h; simpa using h1
      | none => rw [hsto] at h; cases h; simpa using h1
  · split at h <;> (cases h; rfl)

theorem foldlM_demux_length : ∀ (lines : List Str) (st st' : DemuxSt),
    lines.foldlM demuxStep st = some st' → st'.results.length = st.results.length := by
  intro lines
  induction lines with
  | nil => intro st st' h; cases h; rfl
  | cons l t ih =>
    intro st st' h
    rw [List.foldlM_cons] at h
    cases hs : demuxStep st l with
    | none => rw [hs] at h; cases h
    | some st1 =>
      rw [hs] at h
      simp only [Option.bind_eq_bind] at h
      exact (ih st1 st' h).trans (demuxStep_length hs)

theorem demuxFrom_cons (st : DemuxSt) (l : Str) (rest : List Str) :
    demuxFrom st (l :: rest)
      = match demuxStep st l with
        | none => none
        | some st' => demuxFrom st' rest := by
  unfold demuxFrom
  rw [List.foldlM_cons]
  cases demuxStep st l <;> simp

theorem demuxFrom_append (st : DemuxSt) (a b : List Str) :
    demuxFrom st (a ++ b)
      = match a.foldlM demuxStep st with
        | none => none
        | some st' => demuxFrom st' b := by
  unfold demuxFrom
  rw [List.foldlM_append]
  cases a.foldlM demuxStep st <;> simp

theorem isPrefixOf_append_self (p s : Str) : p.isPrefixOf (p ++ s) = true := by
  rw [List.isPrefixOf_iff_prefix]
  exact List.prefix_append p s

/-- Accumulation: a run of non-marker lines, entered with a non-negative
current index, appends each line plus `'\n'` to the buffer and changes
nothing else. -/
theorem foldlM_body : ∀ (body : List Str) (st : DemuxSt), 0 ≤ st.current →
    (∀ l ∈ body, marker.isPrefixOf l = false) →
    body.foldlM demuxStep st
      = some ⟨st.results, st.current, st.buffer ++ joinNL body⟩ := by
  intro body
  induction body with
  | nil =>
    intro st _ _
    simp [joinNL]
  | cons l t ih =>
    intro st hcur hm
    rw [List.foldlM_cons]
    have hstep : demuxStep st l
        = some ⟨st.results, st.current, st.buffer ++ l ++ ['\n']⟩ := by
      unfold demuxStep
      rw [hm l (by simp)]
      simp [hcur]
    rw [hstep]
    simp only [Option.bind_eq_bind, Option.some_bind]
    rw [ih _ (by simpa using hcur) (fun x hx => hm x (by simp [hx]))]
    simp [joinNL]

/-- Processing the marker line for index `i` from any state flushes the
pending segment and switches the target index to `i`. -/
theorem demuxStep_marker (st : DemuxSt) (i : Nat)
    (hflush : 0 ≤ st.current → st.current.toNat < st.results.length)
    (hbuf : 0 ≤ st.current ∨ st.buffer = [])
    (hi : i ≤ intMax) :
    demuxStep st (marker ++ (toString i).data)
      = some ⟨flushRes st, (i : Int), []⟩ := by
  unfold demuxStep
  rw [isPrefixOf_append_self]
  simp only [if_pos rfl]
  have hdrop : (marker ++ (toString i).data).drop marker.length
      = (toString i).data := List.drop_left marker (toString i).data
  by_cases hc : 0 ≤ st.current
  · have hlt := hflush hc
    rw [flushSeg, if_pos hc, if_pos hlt]
    rw [hdrop, stoiM_toString i hi]
    simp [flushRes, if_pos hc]
  · have hb : st.buffer = [] := hbuf.resolve_left hc
    rw [flushSeg, if_neg hc]
    rw [hdrop, stoiM_toString i hi]
    simp [flushRes, if_neg hc, hb]

/-- The main segment lemma: demultiplexing the ideal interleaving of
marker lines and per-command output lines, starting from any consistent
state, writes each segment's newline-joined text into its slot. -/
theorem demuxFrom_segLines : ∀ (outs : List (List Str)) (i : Nat) (st : DemuxSt),
    (0 ≤ st.current → st.current.toNat < st.results.length) →
    (0 ≤ st.current ∨ st.buffer = []) →
    i + outs.length ≤ st.results.length →
    st.results.length ≤ intMax + 1 →
    (∀ ls ∈ outs, ∀ l ∈ ls, marker.isPrefixOf l = false) →
    demuxFrom st (segLines i outs) = some (setSegs (flushRes st) i outs) := by
  intro outs
  induction outs with
  | nil =>
    intro i st hflush hbuf _ _ _
    show demuxFrom st [] = some (flushRes st)
    unfold demuxFrom
    simp only [List.foldlM_nil]
    by_cases hc : 0 ≤ st.current
    · have hlt := hflush hc
      simp [flushSeg, if_pos hc, if_pos hlt, flushRes]
    · simp [flushSeg, if_neg hc, flushRes]
  | cons ls rest ih =>
    intro i st hflush hbuf hbound hmaxlen hnm
    have hi : i ≤ intMax := by
      simp [List.length_cons] at hbound
      omega
    show demuxFrom st ((marker ++ (toString i).data) :: (ls ++ segLines (i + 1) rest))
      = _
    rw [demuxFrom_cons, demuxStep_marker st i hflush hbuf hi]
    show demuxFrom ⟨flushRes st, (i : Int), []⟩ (ls ++ segLines (i + 1) rest) = _
    rw [demuxFrom_append]
    have hlen : (flushRes st).length = st.results.length := by
      unfold flushRes
      split <;> simp
    have hbody := foldlM_body ls ⟨flushRes st, (i : Int), []⟩
      (by simp) (hnm ls (by simp))
    rw [hbody]
    show demuxFrom ⟨flushRes st, (i : Int), [] ++ joinNL ls⟩ _ = _
    have hih := ih (i + 1) ⟨flushRes st, (i : Int), [] ++ joinNL ls⟩
      (by intro _
          show ((i : Int)).toNat < (flushRes st).length
          rw [Int.toNat_ofNat, hlen]
          simp [List.length_cons] at hbound
          omega)
      (by left; simp)
      (by rw [hlen]
          simp [List.length_cons] at hbound
          omega)
      (by rw [hlen]; exact hmaxlen)
      (fun l hl => hnm l (by simp [hl]))
    rw [hih]
    show some (setSegs (flushRes ⟨flushRes st, (i : Int), [] ++ joinNL ls⟩)
      (i + 1) rest) = _
    have hfl : flushRes ⟨flushRes st, (i : Int), [] ++ joinNL ls⟩
        = (flushRes st).set i (stripNL (joinNL ls)) := by
      unfold flushRes
      simp
    rw [hfl]
    rfl

/-- Writing segments `0 … n-1` into `n` empty slots yields exactly the
list of segment texts. -/
theorem setSegs_replicate :
    ∀ (outs : List (List Str)) (pre : List Str),
      setSegs (pre ++ List.replicate outs.length []) pre.length outs
        = pre ++ outs.map (fun ls => stripNL (joinNL ls)) := by
  intro outs
  induction outs with
  | nil => intro pre; simp [setSegs]
  | cons ls rest ih =>
    intro pre
    show setSegs ((pre ++ List.replicate (rest.length + 1) []).set pre.length
        (stripNL (joinNL ls))) (pre.length + 1) rest = _
    rw [List.replicate_succ]
    rw [List.set_append_right _ _ (Nat.le_refl _)]
    simp only [Nat.sub_self, List.set_cons_zero]
    have hre : pre ++ stripNL (joinNL ls) :: List.replicate rest.length []
        = (pre ++ [stripNL (joinNL ls)]) ++ List.replicate rest.length [] := by
      simp
    rw [hre]
    have hlen : pre.length + 1 = (pre ++ [stripNL (joinNL ls)]).length := by
      simp
    rw [hlen, ih (pre ++ [stripNL (joinNL ls)])]
    simp

/-! ## Claim theorems: the multiplexing protocol -/

/-- C2: for every non-empty command list whose individual outputs are
known multi-line texts containing no line that begins with the marker
`__ADB_MULTI__`, demultiplexing the channel output consisting of each
command's marker line (the marker followed by its zero-based index)
followed by that command's output lines yields exactly those texts, each
with its trailing newline stripped, in positional order.  (The index
count is bounded by the `int` range through which `std::stoi` parses the
marker indices.) -/
theorem shell_multi_roundtrip (outs : List (List Str))
    (_hne : outs ≠ [])
    (hlen : outs.length ≤ intMax + 1)
    (hnm : ∀ ls ∈ outs, ∀ l ∈ ls, marker.isPrefixOf l = false) :
    demuxLines outs.length (segLines 0 outs)
      = some (outs.map (fun ls => stripNL (joinNL ls))) := by
  unfold demuxLines
  rw [demuxFrom_segLines outs 0 ⟨List.replicate outs.length [], -1, []⟩
    (by intro h
        have h1 : (0:Int) ≤ -1 := h
        omega)
    (Or.inr rfl)
    (by simp)
    (by simpa using hlen)
    hnm]
  have h0 : flushRes ⟨List.replicate outs.length [], -1, []⟩
      = List.replicate outs.length [] := by
    simp [flushRes]
  rw [h0]
  have h1 := setSegs_replicate outs []
  simpa using h1

/-- C2 witness: a concrete two-command round trip. -/
theorem shell_multi_roundtrip_witness :
    demuxLines 2 (segLines 0 [["ab".data, "cd".data], ["x".data]])
      = some ["ab\ncd".data, "x".data] := by
  have h := shell_multi_roundtrip [["ab".data, "cd".data], ["x".data]]
    (by decide) (by decide) (by decide)
  exact h.trans (by decide)

/-- C5: a marker line whose trailing text does not parse as an integer
opens a new segment at the previous segment's index plus one, and the
following non-marker lines are accumulated into that segment, joined by
newlines with the final trailing newline stripped. -/
theorem demux_marker_parse_fallback
    (n : Nat) (front : List Str) (junk : Str) (body : List Str) (st : DemuxSt)
    (hfront : front.foldlM demuxStep ⟨List.replicate n [], -1, []⟩ = some st)
    (hjunk : stoiM junk = none)
    (hbody : ∀ l ∈ body, marker.isPrefixOf l = false)
    (hcur : 0 ≤ st.current)
    (hrange : st.current.toNat + 1 < n) :
    demuxLines n (front ++ (marker ++ junk) :: body)
      = some ((st.results.set st.current.toNat (stripNL st.buffer)).set
          (st.current.toNat + 1) (stripNL (joinNL body))) := by
  have hn : st.results.length = n := by
    have h := foldlM_demux_length front _ st hfront
    simpa using h
  unfold demuxLines
  rw [demuxFrom_append, hfront]
  show demuxFrom st ((marker ++ junk) :: body) = _
  rw [demuxFrom_cons]
  have hstep : demuxStep st (marker ++ junk)
      = some ⟨st.results.set st.current.toNat (stripNL st.buffer),
          st.current + 1, []⟩ := by
    unfold demuxStep
    rw [isPrefixOf_append_self]
    simp only [if_pos rfl]
    rw [flushSeg, if_pos hcur, if_pos (by omega : st.current.toNat < st.results.length)]
    rw [List.drop_left marker junk, hjunk]
    simp
  rw [hstep]
  show demuxFrom _ body = _
  unfold demuxFrom
  rw [foldlM_body body _ (by show (0:Int) ≤ st.current + 1; omega) hbody]
  simp only [Option.bind_eq_bind, Option.some_bind]
  have ht : (st.current + 1).toNat = st.current.toNat + 1 := by omega
  have hlt2 : (st.current + 1).toNat
      < (st.results.set st.current.toNat (stripNL st.buffer)).length := by
    rw [ht]
    simp only [List.length_set, hn]
    omega
  rw [flushSeg, if_pos (by show (0:Int) ≤ st.current + 1; omega), if_pos hlt2]
  simp [ht]

/-- C5 witness: after segment 0 (`"hello"`), an unparseable marker line
`__ADB_MULTI__xx` falls back to index 1 and collects the following lines. -/
theorem demux_marker_parse_fallback_witness :
    demuxLines 2 (["__ADB_MULTI__0".data, "hello".data]
        ++ (marker ++ "xx".data) :: ["a".data, "b".data])
      = some ["hello".data, "a\nb".data] := by
  have h := demux_marker_parse_fallback 2
    ["__ADB_MULTI__0".data, "hello".data] "xx".data
    ["a".data, "b".data]
    ⟨[[], []], 0, "hello\n".data⟩
    (by decide) (by decide) (by decide) (by decide) (by decide)
  exact h.trans (by decide)

/-- C1 (failing-input evaluation): a channel output containing a marker
line whose index (`1`) lies outside `[0, 1)` for a single-command batch
drives `results[current]` out of bounds; the model reports the undefined
out-of-bounds write as `none` instead of a length-1 result vector. -/
theorem shell_multi_oob_marker_eval :
    shell_multi (fun _ => some "__ADB_MULTI__1".data) ["ls".data]
      = (none, 1) := by decide

/-- C4: when the single batched channel invocation cannot be started and
yields no output, `shell_multi` returns exactly `len(commands)` empty
strings after exactly one channel invocation — no command is retried
individually. -/
theorem shell_multi_invoke_failure_total (cmds : List Str) (hne : cmds ≠ []) :
    shell_multi (fun _ => none) cmds
      = (some (List.replicate cmds.length []), 1) := by
  cases cmds with
  | nil => exact absurd rfl hne
  | cons c t => rfl

/-- C4 witness: two commands against a channel that fails to invoke. -/
theorem shell_multi_invoke_failure_total_witness :
    shell_multi (fun _ => none) ["ls".data, "id".data] = (some [[], []], 1) :=
  shell_multi_invoke_failure_total ["ls".data, "id".data] (by decide)

/-- C10: called with an empty command list, `shell_multi` returns the
empty sequence and performs no channel invocation at all, whatever the
channel would do. -/
theorem shell_multi_empty (channel : Str → Option Str) :
    shell_multi channel [] = (some [], 0) := rfl

/-! ## The TTL cache of `main.cpp`

`std::chrono::system_clock::time_point` is modelled as nanosecond ticks
(`Nat`); `duration_cast<seconds>` is the truncating tick division.  The
clock is assumed monotone across the requests of one scenario, matching
the `now()` reads of the handlers. -/

/-- Ticks per second of the modelled `system_clock`. -/
def ticksPerSec : Nat := 1000000000

/-- One entry of the `std::map<std::string, CacheEntry>` cache. -/
structure CacheEntry where
  value : String
  timestamp : Nat
deriving DecidableEq

/-- The cache map, as its lookup function. -/
abbrev Cache := String → Option CacheEntry

/-- Model of `is_cached_valid`: entry present and strictly younger than
`ttl_seconds` after truncating the elapsed time to whole seconds. -/
def is_cached_valid (c : Cache) (key : String) (ttl_seconds : Nat) (now : Nat) :
    Bool :=
  match c key with
  | none => false
  | some e => (now - e.timestamp) / ticksPerSec < ttl_seconds

/-- Model of `get_cached`. -/
def get_cached (c : Cache) (key : String) : String :=
  match c key with
  | some e => e.value
  | none => ""

/-- Model of `set_cached`: overwrite with the current timestamp. -/
def set_cached (c : Cache) (key : String) (value : String) (now : Nat) : Cache :=
  fun k => if k = key then some ⟨value, now⟩ else c k

/-- Outcome of the record builder (`build_device_info` etc.): either a
serialized record or a thrown exception. -/
inductive BuildResult where
  | ok (v : String)
  | thrown
deriving DecidableEq

/-- Result of one cached-endpoint request. -/
structure HandlerOut where
  response : Option String
  cache : Cache
  calls : Nat

/-- Model of the cached GET handlers (e.g. `GET /device`): serve the
cached value on a TTL hit; otherwise invoke the builder once, and only on
success store the result with `set_cached`.  A thrown builder reaches the
catch block: an error response, with no cache write. -/
def handle_cached_request (c : Cache) (key : String) (ttl : Nat) (now : Nat)
    (build : BuildResult) : HandlerOut :=
  if is_cached_valid c key ttl now then
    ⟨some (get_cached c key), c, 0⟩
  else
    match build with
    | .ok v => ⟨some v, set_cached c key v now, 1⟩
    | .thrown => ⟨none, c, 1⟩

/-- C3: within one TTL window the compute step runs at most once, and the
just-before/just-after TTL boundary scenario computes exactly twice with
the second computation overwriting the expired entry. -/
theorem cache_ttl_idempotence_and_boundary :
    (∀ (c : Cache) (key : String) (ttl : Nat) (v₁ : String) (b₂ : BuildResult)
        (now₁ now₂ : Nat),
      now₂ - now₁ < ttl * ticksPerSec →
      (handle_cached_request c key ttl now₁ (.ok v₁)).calls
        + (handle_cached_request
            (handle_cached_request c key ttl now₁ (.ok v₁)).cache
            key ttl now₂ b₂).calls ≤ 1) ∧
    (∀ (c : Cache) (key : String) (ttl : Nat) (v₁ v₃ : String)
        (b₂ : BuildResult) (now₁ now₂ now₃ : Nat),
      c key = none →
      now₂ - now₁ < ttl * ticksPerSec →
      ttl * ticksPerSec ≤ now₃ - now₁ →
      let r₁ := handle_cached_request c key ttl now₁ (.ok v₁)
      let r₂ := handle_cached_request r₁.cache key ttl now₂ b₂
      let r₃ := handle_cached_request r₂.cache key ttl now₃ (.ok v₃)
      r₁.calls + r₂.calls + r₃.calls = 2 ∧ r₃.cache key = some ⟨v₃, now₃⟩) := by
  have htps : 0 < ticksPerSec := by decide
  constructor
  · intro c key ttl v₁ b₂ now₁ now₂ hwin
    by_cases h1 : is_cached_valid c key ttl now₁
    · simp only [handle_cached_request, if_pos h1]
      by_cases h2 : is_cached_valid c key ttl now₂ <;>
        simp [handle_cached_request, h2] <;> cases b₂ <;> simp
    · simp only [handle_cached_request, if_neg h1]
      have h2 : is_cached_valid (set_cached c key v₁ now₁) key ttl now₂ = true := by
        unfold is_cached_valid set_cached
        rw [if_pos rfl]
        show decide ((now₂ - now₁) / ticksPerSec < ttl) = true
        exact decide_eq_true (by rw [Nat.div_lt_iff_lt_mul htps]; omega)
      simp [handle_cached_request, h2]
  · intro c key ttl v₁ v₃ b₂ now₁ now₂ now₃ hmiss hwin hexp
    have h1 : is_cached_valid c key ttl now₁ = false := by
      simp [is_cached_valid, hmiss]
    simp only [handle_cached_request, h1, Bool.false_eq_true, if_false]
    have h2 : is_cached_valid (set_cached c key v₁ now₁) key ttl now₂ = true := by
      unfold is_cached_valid set_cached
      rw [if_pos rfl]
      show decide ((now₂ - now₁) / ticksPerSec < ttl) = true
      exact decide_eq_true (by rw [Nat.div_lt_iff_lt_mul htps]; omega)
    simp only [h2, if_pos rfl, if_true]
    have h3 : is_cached_valid (set_cached c key v₁ now₁) key ttl now₃ = false := by
      unfold is_cached_valid set_cached
      rw [if_pos rfl]
      show decide ((now₃ - now₁) / ticksPerSec < ttl) = false
      refine decide_eq_false ?_
      intro hlt
      rw [Nat.div_lt_iff_lt_mul htps] at hlt
      omega
    simp [handle_cached_request, h3, set_cached]

/-- C3 witness: TTL 300 s, first call at t=0 stores; a call at t=299 s is
served from cache; a call at t=300 s recomputes and overwrites. -/
theorem cache_ttl_idempotence_and_boundary_witness :
    ((handle_cached_request (fun _ => none) "device_info" 300 0 (.ok "a")).calls
      + (handle_cached_request
          (handle_cached_request (fun _ => none) "device_info" 300 0
            (.ok "a")).cache
          "device_info" 300 299000000000 (.ok "b")).calls ≤ 1) ∧
    ((handle_cached_request
        (handle_cached_request
          (handle_cached_request (fun _ => none) "device_info" 300 0
            (.ok "a")).cache
          "device_info" 300 299000000000 (.ok "b")).cache
        "device_info" 300 300000000000 (.ok "c")).cache "device_info"
      = some ⟨"c", 300000000000⟩) := by
  constructor
  · exact cache_ttl_idempotence_and_boundary.1 (fun _ => none) "device_info"
      300 "a" (.ok "b") 0 299000000000 (by decide)
  · exact (cache_ttl_idempotence_and_boundary.2 (fun _ => none) "device_info"
      300 "a" "c" (.ok "b") 0 299000000000 300000000000 rfl (by decide)
      (by decide)).2

/-- C6: a thrown builder leaves the cache exactly as it was — no write,
no failure marker — so a later request within the prior entry's TTL
window is still served the prior valid value without recomputation. -/
theorem compute_failure_preserves_cache
    (c : Cache) (key : String) (ttl : Nat) (now : Nat)
    (v : String) (ts : Nat) (now' : Nat) (b : BuildResult)
    (hent : c key = some ⟨v, ts⟩)
    (hwin : now' - ts < ttl * ticksPerSec) :
    (handle_cached_request c key ttl now .thrown).cache = c ∧
    (handle_cached_request (handle_cached_request c key ttl now .thrown).cache
        key ttl now' b).response = some v ∧
    (handle_cached_request (handle_cached_request c key ttl now .thrown).cache
        key ttl now' b).calls = 0 := by
  have htps : 0 < ticksPerSec := by decide
  have hcache : (handle_cached_request c key ttl now .thrown).cache = c := by
    unfold handle_cached_request
    by_cases h1 : is_cached_valid c key ttl now <;> simp [h1]
  refine ⟨hcache, ?_, ?_⟩ <;>
    · rw [hcache]
      have hvalid : is_cached_valid c key ttl now' = true := by
        simp only [is_cached_valid, hent, decide_eq_true_eq]
        rw [Nat.div_lt_iff_lt_mul htps]
        omega
      simp [handle_cached_request, hvalid, get_cached, hent]

/-- C6 witness: an entry stored at t=0 survives a failed recomputation at
t=400 s (TTL 300 s — already expired, so the builder ran and threw) and
is still served at t=299 s of its own window. -/
theorem compute_failure_preserves_cache_witness :
    ((handle_cached_request
        (fun k => if k = "device_info" then some ⟨"V", 0⟩ else none)
        "device_info" 300 400000000000 .thrown).cache
      = (fun k => if k = "device_info" then some ⟨"V", 0⟩ else none)) ∧
    ((handle_cached_request
        (handle_cached_request
          (fun k => if k = "device_info" then some ⟨"V", 0⟩ else none)
          "device_info" 300 400000000000 .thrown).cache
        "device_info" 300 299000000000 .thrown).response = some "V") := by
  have h := compute_failure_preserves_cache
    (fun k => if k = "device_info" then some ⟨"V", 0⟩ else none)
    "device_info" 300 400000000000 "V" 0 299000000000 .thrown
    (by simp) (by decide)
  exact ⟨h.1, h.2.1⟩

/-! ## Rational model of the `double` rounding convention -/

/-- `std::round`: nearest integer, halves away from zero. -/
def roundAway (x : ℚ) : Int := if 0 ≤ x then ⌊x + 1 / 2⌋ else ⌈x - 1 / 2⌉

/-- The ubiquitous `std::round(x * 100) / 100`: two decimal places. -/
def round2 (x : ℚ) : ℚ := (roundAway (x * 100) : ℚ) / 100

theorem roundAway_intCast (n : Int) : roundAway (n : ℚ) = n := by
  unfold roundAway
  by_cases h : (0 : ℚ) ≤ (n : ℚ)
  · rw [if_pos h]
    rw [Int.floor_int_add]
    norm_num
  · rw [if_neg h]
    rw [show ((n : ℚ) - 1 / 2) = (-(1 / 2) : ℚ) + (n : ℚ) by ring]
    rw [Int.ceil_add_int]
    norm_num

theorem round2_eval (x : ℚ) (n : Int) (h : x * 100 = (n : ℚ)) :
    round2 x = (n : ℚ) / 100 := by
  rw [round2, h, roundAway_intCast]

theorem roundAway_mono {x y : ℚ} (h : x ≤ y) : roundAway x ≤ roundAway y := by
  unfold roundAway
  by_cases hx : 0 ≤ x
  · rw [if_pos hx, if_pos (le_trans hx h)]
    exact Int.floor_le_floor (by linarith)
  · rw [if_neg hx]
    by_cases hy : 0 ≤ y
    · rw [if_pos hy]
      calc ⌈x - 1 / 2⌉ ≤ ⌈(0 : ℚ)⌉ := Int.ceil_le_ceil (by linarith)
        _ = 0 := Int.ceil_zero
        _ ≤ ⌊y + 1 / 2⌋ := Int.le_floor.mpr (by push_cast; linarith)
    · rw [if_neg hy]
      exact Int.ceil_le_ceil (by linarith)

theorem round2_mono {x y : ℚ} (h : x ≤ y) : round2 x ≤ round2 y := by
  unfold round2
  have h1 := roundAway_mono (mul_le_mul_of_nonneg_right h (by norm_num : (0:ℚ) ≤ 100))
  have h2 : ((roundAway (x * 100) : Int) : ℚ) ≤ ((roundAway (y * 100) : Int) : ℚ) :=
    Int.cast_le.mpr h1
  gcongr

/-! ## `parsers::parse_cpu_freq` and `parse_cpu_frequencies_detailed` -/

/-- Attempt of the `cpu(\d+)` pattern anchored at the head of the list
(`cpu` literal followed by a greedy non-empty digit run). -/
def cpuMatchAt : Str → Option Str
  | 'c' :: 'p' :: 'u' :: t =>
    let ds := t.takeWhile (fun c => c.isDigit)
    if ds.isEmpty then none else some ds
  | _ => none

/-- Model of `std::regex_search(path, match, regex("cpu(\d+)"))`:
leftmost match wins, digits are captured greedily. -/
def findCpuNum : Str → Option Str
  | [] => none
  | c :: rest =>
    match cpuMatchAt (c :: rest) with
    | some ds => some ds
    | none => findCpuNum rest

/-- Character set of the `find_first_not_of(" \t\n\r")` trim. -/
def isTrimWS (c : Char) : Bool := c = ' ' ∨ c = '\t' ∨ c = '\n' ∨ c = '\r'

/-- `std::map::operator[]=`: overwrite the existing key or append. -/
def upsert : List (Str × Int) → Str → Int → List (Str × Int)
  | [], k, v => [(k, v)]
  | (k', v') :: rest, k, v =>
    if k' = k then (k, v) :: rest else (k', v') :: upsert rest k v

/-- Model of `parsers::parse_cpu_freq`: per line, split at the first
colon; find the `cpu<digits>` key in the path part; trim and `stoi` the
value part; skip the line on any failure. -/
def parse_cpu_freq (text : Str) : List (Str × Int) :=
  (splitLines text).foldl
    (fun freqs line =>
      if line.any (fun c => c = ':') then
        match findCpuNum (line.takeWhile (fun c => c ≠ ':')) with
        | some ds =>
          match stoiM (((line.dropWhile (fun c => c ≠ ':')).drop 1).dropWhile
              isTrimWS) with
          | some f => upsert freqs ('c' :: 'p' :: 'u' :: ds) f
          | none => freqs
        | none => freqs
      else freqs) []

/-- `*std::min_element` over the value list (total: `0` on `[]`, which
the callers never reach). -/
def listMin : List Int → Int
  | [] => 0
  | x :: xs => xs.foldl min x

/-- `*std::max_element` over the value list. -/
def listMax : List Int → Int
  | [] => 0
  | x :: xs => xs.foldl max x

/-- The record built by `parsers::parse_cpu_frequencies_detailed`. -/
structure CPUFreqData where
  per_core : List (Str × Int)
  min_khz : Int
  max_khz : Int
  min_mhz : ℚ
  max_mhz : ℚ
  avg_mhz : ℚ
  core_count : Nat
  error : Bool

/-- Model of `parsers::parse_cpu_frequencies_detailed`.  On an empty
parse the C++ function returns `error = true` with the numeric fields
uninitialized; the model fills them with zeros, which nothing reads. -/
def parse_cpu_frequencies_detailed (text : Str) : CPUFreqData :=
  let per_core := parse_cpu_freq text
  if per_core.isEmpty then
    ⟨per_core, 0, 0, 0, 0, 0, 0, true⟩
  else
    let vs := per_core.map (fun e => e.2)
    let sum : Int := vs.foldl (fun a v => a + v) 0
    ⟨per_core, listMin vs, listMax vs,
      round2 ((listMin vs : ℚ) / 1000), round2 ((listMax vs : ℚ) / 1000),
      round2 ((sum : ℚ) / (vs.length : ℚ) / 1000), vs.length, false⟩

/-- Unfolded form of the non-error branch. -/
theorem parse_cpu_frequencies_detailed_eq (text : Str)
    (hne : (parse_cpu_freq text).isEmpty = false) :
    parse_cpu_frequencies_detailed text
      = ⟨parse_cpu_freq text,
          listMin ((parse_cpu_freq text).map (fun e => e.2)),
          listMax ((parse_cpu_freq text).map (fun e => e.2)),
          round2 ((listMin ((parse_cpu_freq text).map (fun e => e.2)) : ℚ) / 1000),
          round2 ((listMax ((parse_cpu_freq text).map (fun e => e.2)) : ℚ) / 1000),
          round2 (((((parse_cpu_freq text).map (fun e => e.2)).foldl
              (fun a v => a + v) 0 : Int) : ℚ)
            / (((parse_cpu_freq text).map (fun e => e.2)).length : ℚ) / 1000),
          ((parse_cpu_freq text).map (fun e => e.2)).length, false⟩ := by
  unfold parse_cpu_frequencies_detailed
  rw [if_neg (by rw [hne]; exact Bool.false_ne_true)]

/-! ## Percentage computations of `build_storage_info` / `build_memory_info` -/

/-- The `usage_percent` computation of `build_storage_info`
(`total_kb > 0 ? round((used/total*100)*100)/100 : 0`). -/
def storage_usage_percent (used_kb total_kb : Int) : ℚ :=
  if 0 < total_kb then round2 ((used_kb : ℚ) / (total_kb : ℚ) * 100) else 0

/-- The `usage_percent` computation of `build_memory_info` on the
(already MB-converted, `double`) totals. -/
def memory_usage_percent (total available : ℚ) : ℚ :=
  if 0 < total then round2 ((total - available) / total * 100) else 0

/-! ## Fold lemmas for min / max / sum -/

theorem foldl_min_le_init : ∀ (xs : List Int) (a : Int), xs.foldl min a ≤ a := by
  intro xs
  induction xs with
  | nil => intro a; simp
  | cons x t ih =>
    intro a
    calc (x :: t).foldl min a = t.foldl min (min a x) := by simp
    _ ≤ min a x := ih _
    _ ≤ a := min_le_left a x

theorem foldl_min_le_mem : ∀ (xs : List Int) (a x : Int), x ∈ xs → xs.foldl min a ≤ x := by
  intro xs
  induction xs with
  | nil => intro a x hx; simp at hx
  | cons y t ih =>
    intro a x hx
    rcases List.mem_cons.1 hx with rfl | hx
    · calc (x :: t).foldl min a = t.foldl min (min a x) := by simp
      _ ≤ min a x := foldl_min_le_init t _
      _ ≤ x := min_le_right a x
    · exact ih (min a y) x hx

theorem listMin_le_mem (xs : List Int) (x : Int) (hx : x ∈ xs) : listMin xs ≤ x := by
  cases xs with
  | nil => simp at hx
  | cons v t =>
    rcases List.mem_cons.1 hx with rfl | hx
    · exact foldl_min_le_init t x
    · exact foldl_min_le_mem t v x hx

theorem init_le_foldl_max : ∀ (xs : List Int) (a : Int), a ≤ xs.foldl max a := by
  intro xs
  induction xs with
  | nil => intro a; simp
  | cons x t ih =>
    intro a
    calc a ≤ max a x := le_max_left a x
    _ ≤ t.foldl max (max a x) := ih _
    _ = (x :: t).foldl max a := by simp

theorem mem_le_foldl_max : ∀ (xs : List Int) (a x : Int), x ∈ xs → x ≤ xs.foldl max a := by
  intro xs
  induction xs with
  | nil => intro a x hx; simp at hx
  | cons y t ih =>
    intro a x hx
    rcases List.mem_cons.1 hx with rfl | hx
    · calc x ≤ max a x := le_max_right a x
      _ ≤ t.foldl max (max a x) := init_le_foldl_max t _
      _ = (x :: t).foldl max a := by simp
    · exact ih (max a y) x hx

theorem mem_le_listMax (xs : List Int) (x : Int) (hx : x ∈ xs) : x ≤ listMax xs := by
  cases xs with
  | nil => simp at hx
  | cons v t =>
    rcases List.mem_cons.1 hx with rfl | hx
    · exact init_le_foldl_max t x
    · exact mem_le_foldl_max t v x hx

theorem foldl_add_init : ∀ (xs : List Int) (a : Int),
    xs.foldl (fun s v => s + v) a = a + xs.foldl (fun s v => s + v) 0 := by
  intro xs
  induction xs with
  | nil => intro a; simp
  | cons x t ih =>
    intro a
    simp only [List.foldl_cons]
    rw [ih (a + x), ih (0 + x)]
    ring

theorem foldl_add_ge (xs : List Int) (m : Int) (h : ∀ x ∈ xs, m ≤ x) :
    (xs.length : Int) * m ≤ xs.foldl (fun s v => s + v) 0 := by
  induction xs with
  | nil => simp
  | cons x t ih =>
    simp only [List.foldl_cons, List.length_cons]
    rw [foldl_add_init t (0 + x)]
    have h1 := ih (fun y hy => h y (List.mem_cons_of_mem x hy))
    have h2 := h x (List.mem_cons_self x t)
    push_cast
    linarith

theorem foldl_add_le (xs : List Int) (m : Int) (h : ∀ x ∈ xs, x ≤ m) :
    xs.foldl (fun s v => s + v) 0 ≤ (xs.length : Int) * m := by
  induction xs with
  | nil => simp
  | cons x t ih =>
    simp only [List.foldl_cons, List.length_cons]
    rw [foldl_add_init t (0 + x)]
    have h1 := ih (fun y hy => h y (List.mem_cons_of_mem x hy))
    have h2 := h x (List.mem_cons_self x t)
    push_cast
    linarith

/-! ## Claim theorems: extractors and unit conversions -/

/-- C9: whenever `parse_cpu_frequencies_detailed` succeeds, the reported
aggregates satisfy `min_khz ≤ max_khz`, `min_mhz ≤ avg_mhz ≤ max_mhz`
(each rounded independently to two decimals), and `core_count` is the
(positive) number of per-core entries. -/
theorem cpu_freq_invariants (text : Str)
    (herr : (parse_cpu_frequencies_detailed text).error = false) :
    (parse_cpu_frequencies_detailed text).min_khz
        ≤ (parse_cpu_frequencies_detailed text).max_khz ∧
    (parse_cpu_frequencies_detailed text).min_mhz
        ≤ (parse_cpu_frequencies_detailed text).avg_mhz ∧
    (parse_cpu_frequencies_detailed text).avg_mhz
        ≤ (parse_cpu_frequencies_detailed text).max_mhz ∧
    (parse_cpu_frequencies_detailed text).core_count
        = (parse_cpu_frequencies_detailed text).per_core.length ∧
    0 < (parse_cpu_frequencies_detailed text).core_count := by
  have hne : (parse_cpu_freq text).isEmpty = false := by
    cases hh : (parse_cpu_freq text).isEmpty
    · rfl
    · exfalso
      unfold parse_cpu_frequencies_detailed at herr
      rw [if_pos hh] at herr
      simp at herr
  rw [parse_cpu_frequencies_detailed_eq text hne]
  dsimp only
  have hpcne : parse_cpu_freq text ≠ [] := by
    intro h
    rw [h] at hne
    simp at hne
  set vs : List Int := (parse_cpu_freq text).map (fun e => e.2) with hvsdef
  have hvne : vs ≠ [] := by
    rw [hvsdef]
    simpa using hpcne
  obtain ⟨v, t, hvt⟩ := List.exists_cons_of_ne_nil hvne
  have hmem : v ∈ vs := by rw [hvt]; exact List.mem_cons_self _ _
  have hminmax : listMin vs ≤ listMax vs :=
    le_trans (listMin_le_mem vs v hmem) (mem_le_listMax vs v hmem)
  have hlenpos : 0 < vs.length := by rw [hvt]; simp
  have hlenq : (0 : ℚ) < (vs.length : ℚ) := by exact_mod_cast hlenpos
  have hsum_ge : (vs.length : Int) * listMin vs
      ≤ vs.foldl (fun s v => s + v) 0 :=
    foldl_add_ge vs (listMin vs) (fun x hx => listMin_le_mem vs x hx)
  have hsum_le : vs.foldl (fun s v => s + v) 0
      ≤ (vs.length : Int) * listMax vs :=
    foldl_add_le vs (listMax vs) (fun x hx => mem_le_listMax vs x hx)
  have hmin_avg : ((listMin vs : Int) : ℚ)
      ≤ ((vs.foldl (fun s v => s + v) 0 : Int) : ℚ) / (vs.length : ℚ) := by
    rw [le_div_iff hlenq]
    exact_mod_cast (by linarith : (listMin vs * vs.length : Int)
      ≤ vs.foldl (fun s v => s + v) 0)
  have havg_max : ((vs.foldl (fun s v => s + v) 0 : Int) : ℚ) / (vs.length : ℚ)
      ≤ ((listMax vs : Int) : ℚ) := by
    rw [div_le_iff hlenq]
    exact_mod_cast (by linarith : (vs.foldl (fun s v => s + v) 0 : Int)
      ≤ listMax vs * vs.length)
  refine ⟨hminmax, ?_, ?_, by rw [hvsdef]; simp, hlenpos⟩
  · exact round2_mono
      ((div_le_div_iff_of_pos_right (by norm_num : (0:ℚ) < 1000)).mpr hmin_avg)
  · exact round2_mono
      ((div_le_div_iff_of_pos_right (by norm_num : (0:ℚ) < 1000)).mpr havg_max)

/-- The frequency text of the C7 scenario: one `path: value` line per
core. -/
def freqText : Str :=
  ("/sys/devices/system/cpu/cpu0/cpufreq/scaling_cur_freq: 1800000\n"
    ++ "/sys/devices/system/cpu/cpu1/cpufreq/scaling_cur_freq: 2400000").data

theorem freqText_per_core :
    parse_cpu_freq freqText = [("cpu0".data, 1800000), ("cpu1".data, 2400000)] := by
  decide

/-- Full evaluation of the C7 scenario record. -/
theorem freqText_detailed :
    parse_cpu_frequencies_detailed freqText
      = ⟨[("cpu0".data, 1800000), ("cpu1".data, 2400000)],
          1800000, 2400000, 1800, 2400, 2100, 2, false⟩ := by
  rw [parse_cpu_frequencies_detailed_eq freqText (by rw [freqText_per_core]; rfl)]
  rw [freqText_per_core]
  have hm : ([(("cpu0".data : Str), (1800000 : Int)),
      ("cpu1".data, 2400000)].map (fun e => e.2)) = [1800000, 2400000] := rfl
  rw [hm]
  have h1 : listMin [(1800000 : Int), 2400000] = 1800000 := by decide
  have h2 : listMax [(1800000 : Int), 2400000] = 2400000 := by decide
  have h3 : ([(1800000 : Int), 2400000].foldl (fun a v => a + v) 0) = 4200000 := by
    decide
  have h4 : ([(1800000 : Int), 2400000].length) = 2 := rfl
  rw [h1, h2, h3, h4]
  have e1 : round2 (((1800000 : Int) : ℚ) / 1000) = 1800 := by
    rw [round2_eval _ 180000 (by push_cast; norm_num)]
    norm_num
  have e2 : round2 (((2400000 : Int) : ℚ) / 1000) = 2400 := by
    rw [round2_eval _ 240000 (by push_cast; norm_num)]
    norm_num
  have e3 : round2 (((4200000 : Int) : ℚ) / ((2 : Nat) : ℚ) / 1000) = 2100 := by
    rw [round2_eval _ 210000 (by push_cast; norm_num)]
    norm_num
  rw [e1, e2, e3]

/-- C7 counterexample: on the claimed input the code computes
`avg_mhz = 2100` (megahertz), not the claimed `2.1`. -/
theorem freqText_avg_mhz_ne :
    (parse_cpu_frequencies_detailed freqText).avg_mhz ≠ 21 / 10 := by
  rw [freqText_detailed]
  show (2100 : ℚ) ≠ 21 / 10
  norm_num

/-- C7 (amended): the scenario parse yields the per-core map
`{cpu0 ↦ 1800000, cpu1 ↦ 2400000}`, `min_khz = 1800000`,
`max_khz = 2400000`, and `avg_mhz = 2100` (2.1 GHz expressed in MHz). -/
theorem freqText_parse_example :
    (parse_cpu_frequencies_detailed freqText).per_core
        = [("cpu0".data, 1800000), ("cpu1".data, 2400000)] ∧
    (parse_cpu_frequencies_detailed freqText).min_khz = 1800000 ∧
    (parse_cpu_frequencies_detailed freqText).max_khz = 2400000 ∧
    (parse_cpu_frequencies_detailed freqText).avg_mhz = 2100 := by
  rw [freqText_detailed]
  exact ⟨rfl, rfl, rfl, rfl⟩

/-- C9 witness: the invariants hold on the concrete two-core input. -/
theorem cpu_freq_invariants_witness :
    (parse_cpu_frequencies_detailed freqText).error = false ∧
    ((parse_cpu_frequencies_detailed freqText).min_khz
        ≤ (parse_cpu_frequencies_detailed freqText).max_khz ∧
      (parse_cpu_frequencies_detailed freqText).min_mhz
        ≤ (parse_cpu_frequencies_detailed freqText).avg_mhz ∧
      (parse_cpu_frequencies_detailed freqText).avg_mhz
        ≤ (parse_cpu_frequencies_detailed freqText).max_mhz ∧
      (parse_cpu_frequencies_detailed freqText).core_count
        = (parse_cpu_frequencies_detailed freqText).per_core.length ∧
      0 < (parse_cpu_frequencies_detailed freqText).core_count) :=
  ⟨by decide, cpu_freq_invariants freqText (by decide)⟩

/-- C8: the usage-percentage computations of `build_storage_info` and
`build_memory_info` return exactly `0` when the parsed total is `0`
(no division occurs), and otherwise `round((used/total)*100, 2)` with
halves rounded away from zero. -/
theorem usage_percent_zero_total_safe :
    (∀ used total : Int,
      (total = 0 → storage_usage_percent used total = 0) ∧
      (0 < total → storage_usage_percent used total
          = round2 ((used : ℚ) / (total : ℚ) * 100))) ∧
    (∀ total available : ℚ,
      (total = 0 → memory_usage_percent total available = 0) ∧
      (0 < total → memory_usage_percent total available
          = round2 ((total - available) / total * 100))) := by
  constructor
  · intro used total
    constructor
    · intro h
      unfold storage_usage_percent
      rw [if_neg (by omega)]
    · intro h
      unfold storage_usage_percent
      rw [if_pos h]
  · intro total available
    constructor
    · intro h
      unfold memory_usage_percent
      rw [if_neg (by rw [h]; exact lt_irrefl 0)]
    · intro h
      unfold memory_usage_percent
      rw [if_pos h]

/-- C8 witness: a zero-total storage row and a zero-total memory record
yield `0`; a positive total follows the rounded formula. -/
theorem usage_percent_zero_total_safe_witness :
    storage_usage_percent 400000 0 = 0 ∧
    memory_usage_percent 0 5 = 0 ∧
    storage_usage_percent 400000 1000000
      = round2 ((400000 : ℚ) / (1000000 : ℚ) * 100) :=
  ⟨(usage_percent_zero_total_safe.1 400000 0).1 rfl,
   (usage_percent_zero_total_safe.2 0 5).1 rfl,
   (usage_percent_zero_total_safe.1 400000 1000000).2 (by norm_num)⟩

end AdbInsight
